import Mathlib

/-!
# Verification of the project-exam Ethereum data API core

Shallow embedding of the Go sources of `MinhWalker/project-exam`:

* `pkg/interface/validator` — `EthereumValidator.IsValidAddress` and
  `EthereumValidator.FormatAddress` (strings modelled as `List Char`);
* `pkg/interface/api/response` — the JSON error envelope
  (`NewErrorResponse`, `InternalServerError`, `TooManyRequests`) and the
  body written by the `Recovery` middleware;
* `pkg/interface/api/handler` — `EthereumHandler.GetAddressInfo`;
* `pkg/interface/api/middleware` — the sliding-window `RateLimiter`
  (`Limit` and `cleanup`);
* `pkg/usecase` — the fan-out/fan-in aggregator
  `ethereumUseCase.GetAddressInfo`.

Machine integers (`int`, `uint64`, `time.Duration` in nanoseconds,
`*big.Int`) are modelled as `Nat`/`Int`; the `float64` fields produced by
`big.Float.Quo` followed by `Float64()` are modelled as exact rationals
(`ℚ`), which coincides with the Go computation whenever the quotient is a
dyadic rational of at most 53 bits, as it is for the values the spec pins
down.
-/

namespace ProjectExam

/-! ## Validator: `pkg/interface/validator/ethereum.go`

Go strings are modelled as `List Char` (a Go `string` is a byte sequence,
iterated as runes; every address the claims talk about is ASCII, where the
two views agree). -/

/-- One character of the class `[0-9a-fA-F]` used by the Go regular
expression `^0x[0-9a-fA-F]{40}$` (ranges are by code point). -/
def isHexDigitChar (c : Char) : Bool :=
  (48 ≤ c.toNat && c.toNat ≤ 57) ||       -- '0'-'9'
  (97 ≤ c.toNat && c.toNat ≤ 102) ||      -- 'a'-'f'
  (65 ≤ c.toNat && c.toNat ≤ 70)          -- 'A'-'F'

/-- `strings.HasPrefix(address, "0x")`. -/
def starts0x : List Char → Bool
  | c1 :: c2 :: _ => c1 == '0' && c2 == 'x'
  | _ => false

/-- Semantics of the anchored Go regular expression
`regexp.MatchString("^0x[0-9a-fA-F]{40}$", address)`: the whole string is
`0x` followed by exactly 40 hex characters. -/
def matchesAddressRegex (s : List Char) : Bool :=
  match s with
  | c1 :: c2 :: rest => c1 == '0' && c2 == 'x' && rest.length == 40 && rest.all isHexDigitChar
  | _ => false

/-- `(*EthereumValidator).IsValidAddress`: length must be 42, the string
must start with `0x`, and the whole string must match
`^0x[0-9a-fA-F]{40}$`. -/
def isValidAddress (s : List Char) : Bool :=
  if s.length ≠ 42 then false
  else if !starts0x s then false
  else matchesAddressRegex s

/-- Character class of Go's `unicode.IsSpace` (the white space code
points trimmed by `strings.TrimSpace`). -/
def isSpaceChar (c : Char) : Bool :=
  c.toNat == 9 || c.toNat == 10 || c.toNat == 11 || c.toNat == 12 ||
  c.toNat == 13 || c.toNat == 32 || c.toNat == 0x85 || c.toNat == 0xA0 ||
  c.toNat == 0x1680 || (0x2000 ≤ c.toNat && c.toNat ≤ 0x200A) ||
  c.toNat == 0x2028 || c.toNat == 0x2029 || c.toNat == 0x202F ||
  c.toNat == 0x205F || c.toNat == 0x3000

/-- `strings.TrimSpace`: drop white space from both ends. -/
def goTrimSpace (s : List Char) : List Char :=
  ((s.dropWhile isSpaceChar).reverse.dropWhile isSpaceChar).reverse

/-- `strings.ToLower` on one character, restricted to the ASCII range
(Go lowercases the full Unicode tables; on ASCII input, which is the only
input reachable from a validated address, the two agree). -/
def goToLowerChar (c : Char) : Char :=
  if 65 ≤ c.toNat && c.toNat ≤ 90 then Char.ofNat (c.toNat + 32) else c

/-- `(*EthereumValidator).FormatAddress`: trim white space, lowercase,
then add the `0x` prefix when missing. -/
def formatAddress (s : List Char) : List Char :=
  let s1 := goTrimSpace s
  let s2 := s1.map goToLowerChar
  if !starts0x s2 then '0' :: 'x' :: s2 else s2

/-! ## Response envelope: `pkg/interface/api/response/response.go`

`Response` carries `status`, `message` and `error`; the `error` JSON field
is `omitempty`, so an absent Go error is modelled as the empty string. -/

/-- The JSON error envelope `response.Response` (the `data` field is never
set together with `error` in the code paths modelled here). -/
structure Response where
  status : String
  message : String
  error : String
  deriving DecidableEq

/-- `response.NewErrorResponse`: status `"error"`, the given generic
message, and — when a Go error is passed — its `Error()` text in the
`error` field. -/
def newErrorResponse (message : String) (err : Option String) : Response :=
  { status := "error", message := message, error := err.getD "" }

/-- `response.InternalServerError`: `NewErrorResponse` with the fixed
message `"Internal server error"` and the caught error. -/
def internalServerErrorBody (err : Option String) : Response :=
  newErrorResponse "Internal server error" err

/-- `response.TooManyRequests`: fixed message, no error detail. -/
def tooManyRequestsBody : Response :=
  newErrorResponse "Rate limit exceeded. Try again later." none

/-- The body written by the `Recovery` middleware after a recovered
panic: `gin.H{"status": "error", "message": "Internal server error"}` —
no `error` field, no stack trace. -/
def recoveryBody : Response :=
  { status := "error", message := "Internal server error", error := "" }

/-! ## Aggregator: `pkg/usecase/ethereum.go`, `(*ethereumUseCase).GetAddressInfo`

The use case launches three goroutines (gas price, block number, balance).
Each goroutine sends either its value on its own channel or a wrapped
error on the shared error channel; the main loop performs exactly three
channel receives and returns on the first error received. Each channel
delivers at most one message, so the three receives are the three
distinct operations in some arrival order — modelled as a permutation of
the operation list. Runs in which the governing context is cancelled are
outside this model (the claims quantify over the outcomes of the three
upstream operations). The Go function returns a `(*entity.AddressInfo,
error)` pair; `*big.Int` fields are nilable, hence `Option Int`. -/

/-- The three upstream operations of the fan-out. -/
inductive UpOp where
  | gasPriceOp
  | blockNumberOp
  | balanceOp
  deriving DecidableEq

/-- Outcome of each upstream repository call. -/
structure Upstream where
  gasPrice : Except String Int
  blockNumber : Except String Nat
  balance : Except String Int

/-- The error, if any, an operation's goroutine puts on `errCh`
(unwrapped). -/
def errOf (u : Upstream) : UpOp → Option String
  | .gasPriceOp => match u.gasPrice with | .error e => some e | .ok _ => none
  | .blockNumberOp => match u.blockNumber with | .error e => some e | .ok _ => none
  | .balanceOp => match u.balance with | .error e => some e | .ok _ => none

/-- The wrapping each goroutine applies before sending on `errCh`
(`fmt.Errorf("failed to get …: %w", err)`). -/
def wrapErr : UpOp → String → String
  | .gasPriceOp, e => "failed to get gas price: " ++ e
  | .blockNumberOp, e => "failed to get block number: " ++ e
  | .balanceOp, e => "failed to get balance: " ++ e

/-- The local variables of the receive loop (`var gasPrice *big.Int`,
`var blockNumber uint64`, `var balance *big.Int`); `none` is the Go zero
value `nil` of a `*big.Int`, the `uint64` zero value is `0`. -/
structure LoopState where
  gasPrice : Option Int
  blockNumber : Option Nat
  balance : Option Int

/-- One successful channel receive: the value of `op` is stored in the
corresponding loop variable. -/
def recv (u : Upstream) (st : LoopState) : UpOp → LoopState
  | .gasPriceOp =>
      { st with gasPrice := match u.gasPrice with | .ok v => some v | .error _ => st.gasPrice }
  | .blockNumberOp =>
      { st with blockNumber := match u.blockNumber with | .ok v => some v | .error _ => st.blockNumber }
  | .balanceOp =>
      { st with balance := match u.balance with | .ok v => some v | .error _ => st.balance }

/-- The receive loop (`for i := 0; i < 3; i++ { select … }`): operations
complete in the order given; the first error short-circuits with the
wrapped error, otherwise every value is stored. -/
def aggLoop (u : Upstream) : List UpOp → LoopState → LoopState ⊕ String
  | [], st => .inl st
  | op :: rest, st =>
      match errOf u op with
      | some e => .inr (wrapErr op e)
      | none => aggLoop u rest (recv u st op)

/-- `entity.GasPrice` (`Wei *big.Int`, `Gwei float64` as exact `ℚ`). -/
structure GasPrice where
  wei : Option Int
  gwei : ℚ
  deriving DecidableEq

/-- `entity.Balance` (`Wei *big.Int`, `Ether float64` as exact `ℚ`). -/
structure Balance where
  wei : Option Int
  ether : ℚ
  deriving DecidableEq

/-- `entity.AddressInfo`. -/
structure AddressInfo where
  address : List Char
  gasPrice : GasPrice
  currentBlock : Nat
  balance : Balance
  timestamp : Int
  deriving DecidableEq

/-- Wei → Gwei: `big.Float` quotient by `10^9` (exact rational model of
the double-precision value). -/
def weiToGwei (wei : Int) : ℚ := (wei : ℚ) / (10 ^ 9 : ℚ)

/-- Wei → Ether: `big.Float` quotient by `10^18`. -/
def weiToEther (wei : Int) : ℚ := (wei : ℚ) / (10 ^ 18 : ℚ)

/-- The `entity.AddressInfo` literal built on the success path of
`GetAddressInfo` from the loop variables (`getD 0` stands for the
unreachable case of an unassigned `*big.Int`, which in Go would be
`nil`). -/
def mkAddressInfo (address : List Char) (now : Int) (st : LoopState) : AddressInfo :=
  { address := address
    gasPrice := { wei := st.gasPrice, gwei := weiToGwei (st.gasPrice.getD 0) }
    currentBlock := st.blockNumber.getD 0
    balance := { wei := st.balance, ether := weiToEther (st.balance.getD 0) }
    timestamp := now }

/-- `(*ethereumUseCase).GetAddressInfo`, as the Go pair
`(*entity.AddressInfo, error)`: run the receive loop over the arrival
order; on first error return `(nil, err)`, on completion return the
populated entity and `nil` error. `now` is the `time.Now()` observed on
the success path. -/
def getAddressInfo (address : List Char) (now : Int) (u : Upstream)
    (order : List UpOp) : Option AddressInfo × Option String :=
  match aggLoop u order ⟨none, none, none⟩ with
  | .inr e => (none, some e)
  | .inl st => (some (mkAddressInfo address now st), none)

/-! ## Handler: `pkg/interface/api/handler/ethereum.go`

`GetAddressInfo` validates the raw address, formats it, calls the use
case, and writes exactly one response: 400 on invalid address, 500 (with
the use-case error in the body) on failure, 200 with the entity on
success. The use case is abstracted as a function from the formatted
address to its result, as the handler only observes that. -/

/-- The single response written by the handler. -/
inductive HandlerResult where
  | errorResp (status : Nat) (body : Response)
  | successResp (status : Nat) (info : AddressInfo)
  deriving DecidableEq

/-- `(*EthereumHandler).GetAddressInfo`. -/
def handleGetAddressInfo (address : List Char)
    (useCase : List Char → Except String AddressInfo) : HandlerResult :=
  if !isValidAddress address then
    .errorResp 400 (newErrorResponse "Invalid Ethereum address format" none)
  else
    match useCase (formatAddress address) with
    | .error e => .errorResp 500 (internalServerErrorBody (some e))
    | .ok info => .successResp 200 info

/-! ## Rate limiter: `pkg/interface/api/middleware/middleware.go`

`RateLimiter` keeps `ips map[string][]time.Time`, a `limit`, a `window`
and a whitelist. The Go map is modelled as an association list (each run
of the code keeps its keys distinct: entries are only created by map
assignment and removed by `delete`). Instants and the window are modelled
as integers (`time.Time`/`time.Duration` are nanosecond counts);
`t.After(windowStart)` is the strict comparison `windowStart < t`. -/

/-- The `RateLimiter` struct (the mutex guards every operation, so the
sequential model below is the behaviour of the serialized critical
sections). -/
structure RateLimiter where
  ips : List (String × List Int)
  limit : Nat
  window : Int
  whitelistIPs : List String
  deriving DecidableEq

/-- Go map read `rl.ips[ip]` (first — unique — matching key). -/
def lookupIps : List (String × List Int) → String → Option (List Int)
  | [], _ => none
  | e :: rest, ip => if e.1 = ip then some e.2 else lookupIps rest ip

/-- Go map write `rl.ips[ip] = ts`: update the existing entry, else add
one. -/
def setIps : List (String × List Int) → String → List Int → List (String × List Int)
  | [], ip, ts => [(ip, ts)]
  | e :: rest, ip, ts => if e.1 = ip then (ip, ts) :: rest else e :: setIps rest ip ts

/-- `t.After(now.Add(-window))`. -/
def inWindow (window now t : Int) : Bool := now - window < t

/-- One request through `(*RateLimiter).Limit` at instant `now`, returning
(admitted?, new state). Whitelisted identities return before touching
`ips`. Otherwise the entry is created if absent, pruned in place
(`validRequests := rl.ips[ip][:0]` filters into the same backing array),
and the request is admitted iff the pruned count is below `limit`. On
rejection the map entry is not reassigned, but the in-place filter has
already overwritten its first `valid.length` positions, so its observable
contents are `valid ++ cur.drop valid.length`; on admission the entry
becomes `valid ++ [now]`. -/
def limitStep (rl : RateLimiter) (ip : String) (now : Int) : Bool × RateLimiter :=
  if rl.whitelistIPs.contains ip then
    (true, rl)
  else
    let cur := (lookupIps rl.ips ip).getD []
    let valid := cur.filter (inWindow rl.window now)
    if rl.limit ≤ valid.length then
      (false, { rl with ips := setIps rl.ips ip (valid ++ cur.drop valid.length) })
    else
      (true, { rl with ips := setIps rl.ips ip (valid ++ [now]) })

/-- `(*RateLimiter).cleanup` at instant `now`: every entry is filtered to
its in-window instants; entries whose filtered list has length zero are
deleted (`validTimes` starts as a fresh nil slice, so no aliasing here). -/
def cleanupStep (rl : RateLimiter) (now : Int) : RateLimiter :=
  { rl with
    ips := rl.ips.filterMap fun e =>
      match e.2.filter (inWindow rl.window now) with
      | [] => none
      | valid => some (e.1, valid) }

/-- The entry transformation of `cleanup` over a plain association list
(`cleanupStep` acts as this on the `ips` field). -/
def cleanList (w now : Int) (m : List (String × List Int)) : List (String × List Int) :=
  m.filterMap fun e =>
    match e.2.filter (inWindow w now) with
    | [] => none
    | valid => some (e.1, valid)

/-- A step of the limiter's observable history: a request hitting
`Limit`, or one run of the background `cleanup`. -/
inductive RLOp where
  | request (ip : String) (now : Int)
  | sweep (now : Int)

/-- Execute one operation (dropping the admit/reject verdict). -/
def runOp (rl : RateLimiter) : RLOp → RateLimiter
  | .request ip now => (limitStep rl ip now).2
  | .sweep now => cleanupStep rl now

/-- Execute a sequence of operations. -/
def runOps (rl : RateLimiter) : List RLOp → RateLimiter
  | [] => rl
  | op :: rest => runOps (runOp rl op) rest

/-- The instants (in order) at which requests from `ip` are admitted
along a run. -/
def admittedTimes (rl : RateLimiter) (ip : String) : List RLOp → List Int
  | [] => []
  | .request ip' now :: rest =>
      if ip' = ip ∧ (limitStep rl ip' now).1 then
        now :: admittedTimes (runOp rl (.request ip' now)) ip rest
      else
        admittedTimes (runOp rl (.request ip' now)) ip rest
  | .sweep now :: rest => admittedTimes (runOp rl (.sweep now)) ip rest

/-- The observable timestamp list stored for `ip` (a missing map entry
reads as the empty list). -/
def storedTimes (rl : RateLimiter) (ip : String) : List Int :=
  (lookupIps rl.ips ip).getD []

/-- Reachable-state invariant of the limiter: map keys are distinct and
no stored list is longer than `limit`. -/
def goodLimiter (rl : RateLimiter) : Prop :=
  (rl.ips.map Prod.fst).Nodup ∧ ∀ ip, (storedTimes rl ip).length ≤ rl.limit

/-!
## Helper lemmas
-/

theorem isValidAddress_iff (s : List Char) :
    isValidAddress s = true ↔
      ∃ t, s = '0' :: 'x' :: t ∧ t.length = 40 ∧ ∀ c ∈ t, isHexDigitChar c = true := by
  rcases s with _ | ⟨c1, s⟩
  · simp [isValidAddress]
  rcases s with _ | ⟨c2, t⟩
  · simp [isValidAddress]
  · constructor
    · intro h
      simp only [isValidAddress, starts0x, matchesAddressRegex] at h
      split at h
      · exact absurd h (by simp)
      · split at h
        · exact absurd h (by simp)
        · simp only [Bool.and_eq_true, beq_iff_eq] at h
          obtain ⟨⟨⟨h0, hx⟩, hlen⟩, hall⟩ := h
          subst h0; subst hx
          exact ⟨t, rfl, by omega, by simpa [List.all_eq_true] using hall⟩
    · rintro ⟨t', ht', hlen, hall⟩
      obtain ⟨h0, hx, ht⟩ : c1 = '0' ∧ c2 = 'x' ∧ t = t' := by
        simpa [List.cons.injEq] using ht'
      subst h0; subst hx; subst ht
      simp [isValidAddress, starts0x, matchesAddressRegex, hlen, List.all_eq_true]
      exact hall

theorem not_space_of_hex {c : Char} (h : isHexDigitChar c = true) : isSpaceChar c = false := by
  rw [Bool.eq_false_iff]
  intro hs
  simp only [isHexDigitChar, Bool.or_eq_true, Bool.and_eq_true, decide_eq_true_eq] at h
  simp only [isSpaceChar, Bool.or_eq_true, Bool.and_eq_true, decide_eq_true_eq, beq_iff_eq] at hs
  omega

theorem dropWhile_space_eq_self (l : List Char) (h : ∀ c ∈ l, isSpaceChar c = false) :
    l.dropWhile isSpaceChar = l := by
  cases l with
  | nil => rfl
  | cons a l => simp [List.dropWhile_cons, h a (List.mem_cons_self a l)]

theorem goTrimSpace_eq_self (l : List Char) (h : ∀ c ∈ l, isSpaceChar c = false) :
    goTrimSpace l = l := by
  unfold goTrimSpace
  rw [dropWhile_space_eq_self l h,
    dropWhile_space_eq_self l.reverse (fun c hc => h c (List.mem_reverse.mp hc)),
    List.reverse_reverse]

theorem hex_goToLowerChar {c : Char} (h : isHexDigitChar c = true) :
    isHexDigitChar (goToLowerChar c) = true := by
  unfold goToLowerChar
  split
  · rename_i hub
    simp only [Bool.and_eq_true, decide_eq_true_eq] at hub
    have hv : (c.toNat + 32).isValidChar := Or.inl (by omega)
    have htn : (Char.ofNat (c.toNat + 32)).toNat = c.toNat + 32 := by
      unfold Char.ofNat
      rw [dif_pos hv]
      rfl
    simp only [isHexDigitChar, Bool.or_eq_true, Bool.and_eq_true, decide_eq_true_eq] at h ⊢
    rw [htn]
    omega
  · exact h

theorem perm3_cases {l : List UpOp}
    (h : l.Perm [UpOp.gasPriceOp, UpOp.blockNumberOp, UpOp.balanceOp]) :
    l = [UpOp.gasPriceOp, UpOp.blockNumberOp, UpOp.balanceOp] ∨
    l = [UpOp.gasPriceOp, UpOp.balanceOp, UpOp.blockNumberOp] ∨
    l = [UpOp.blockNumberOp, UpOp.gasPriceOp, UpOp.balanceOp] ∨
    l = [UpOp.blockNumberOp, UpOp.balanceOp, UpOp.gasPriceOp] ∨
    l = [UpOp.balanceOp, UpOp.gasPriceOp, UpOp.blockNumberOp] ∨
    l = [UpOp.balanceOp, UpOp.blockNumberOp, UpOp.gasPriceOp] := by
  have hlen := h.length_eq
  rcases l with _ | ⟨x, l⟩
  · simp at hlen
  rcases l with _ | ⟨y, l⟩
  · simp at hlen
  rcases l with _ | ⟨z, l⟩
  · simp at hlen
  rcases l with _ | ⟨w, l⟩
  · cases x <;> cases y <;> cases z <;> revert h <;> decide
  · simp at hlen

theorem lookup_setIps_self (m : List (String × List Int)) (ip : String) (ts : List Int) :
    lookupIps (setIps m ip ts) ip = some ts := by
  induction m with
  | nil => simp [setIps, lookupIps]
  | cons e rest ih =>
      by_cases h : e.1 = ip
      · simp [setIps, lookupIps, h]
      · simp [setIps, lookupIps, h, ih]

theorem lookup_setIps_ne (m : List (String × List Int)) (ip ip' : String) (ts : List Int)
    (h : ip' ≠ ip) :
    lookupIps (setIps m ip ts) ip' = lookupIps m ip' := by
  have h' : ip ≠ ip' := Ne.symm h
  induction m with
  | nil => simp [setIps, lookupIps, h']
  | cons e rest ih =>
      by_cases he : e.1 = ip
      · simp [setIps, lookupIps, he, h']
      · by_cases he' : e.1 = ip'
        · simp [setIps, lookupIps, he, he', h, h']
        · simp [setIps, lookupIps, he, he', h, h', ih]

theorem whitelist_frame (rl : RateLimiter) (ip : String) (now : Int)
    (h : rl.whitelistIPs.contains ip = true) :
    limitStep rl ip now = (true, rl) := by
  have hm : ip ∈ rl.whitelistIPs := by simpa using h
  simp [limitStep, hm]

theorem limitStep_verdict (rl : RateLimiter) (ip : String) (now : Int)
    (hw : rl.whitelistIPs.contains ip = false) :
    (limitStep rl ip now).1 =
      decide (((storedTimes rl ip).filter (inWindow rl.window now)).length < rl.limit) := by
  simp only [limitStep, hw, Bool.false_eq_true, if_false, storedTimes]
  split
  · rename_i hle
    simp [Nat.not_lt.mpr hle]
  · rename_i hgt
    simp [Nat.lt_of_not_le (fun hc => hgt hc)]

theorem limitStep_granted_state (rl : RateLimiter) (ip : String) (now : Int)
    (hw : rl.whitelistIPs.contains ip = false)
    (ha : (limitStep rl ip now).1 = true) :
    storedTimes (limitStep rl ip now).2 ip =
      (storedTimes rl ip).filter (inWindow rl.window now) ++ [now] := by
  simp only [limitStep, hw, Bool.false_eq_true, if_false] at ha ⊢
  split at ha
  · simp at ha
  · rename_i hgt
    rw [if_neg hgt]
    simp [storedTimes, lookup_setIps_self]

theorem lookup_eq_none_of_not_mem (m : List (String × List Int)) (ip : String)
    (h : ip ∉ m.map Prod.fst) : lookupIps m ip = none := by
  induction m with
  | nil => rfl
  | cons e rest ih =>
      simp only [List.map_cons, List.mem_cons] at h
      push_neg at h
      have h1 : ¬e.1 = ip := fun he => h.1 he.symm
      simp [lookupIps, h1, ih h.2]

theorem mem_keys_setIps (m : List (String × List Int)) (ip k : String) (ts : List Int) :
    k ∈ (setIps m ip ts).map Prod.fst ↔ k ∈ m.map Prod.fst ∨ k = ip := by
  induction m with
  | nil => simp [setIps, eq_comm]
  | cons e rest ih =>
      by_cases he : e.1 = ip
      · subst he
        simp [setIps, eq_comm]
        tauto
      · simp [setIps, he, ih]
        tauto

theorem nodup_keys_setIps (m : List (String × List Int)) (ip : String) (ts : List Int)
    (h : (m.map Prod.fst).Nodup) : ((setIps m ip ts).map Prod.fst).Nodup := by
  induction m with
  | nil => simp [setIps]
  | cons e rest ih =>
      simp only [List.map_cons, List.nodup_cons] at h
      by_cases he : e.1 = ip
      · simpa [setIps, he, List.nodup_cons] using h
      · simp only [setIps, if_neg he, List.map_cons, List.nodup_cons]
        refine ⟨?_, ih h.2⟩
        rw [mem_keys_setIps]
        push_neg
        exact ⟨h.1, he⟩

theorem cleanupStep_ips (rl : RateLimiter) (now : Int) :
    (cleanupStep rl now).ips = cleanList rl.window now rl.ips := rfl

theorem keys_cleanList_sublist (w now : Int) (m : List (String × List Int)) :
    ((cleanList w now m).map Prod.fst).Sublist (m.map Prod.fst) := by
  induction m with
  | nil => simp [cleanList]
  | cons e rest ih =>
      cases hfe : e.2.filter (inWindow w now) with
      | nil =>
          simp only [cleanList, List.filterMap_cons, hfe, List.map_cons]
          exact ih.trans (List.sublist_cons_self _ _)
      | cons a l =>
          simp only [cleanList, List.filterMap_cons, hfe, List.map_cons]
          exact List.Sublist.cons₂ _ ih

theorem lookup_cleanList (w now : Int) (m : List (String × List Int)) (ip : String)
    (hnd : (m.map Prod.fst).Nodup) :
    lookupIps (cleanList w now m) ip =
      match lookupIps m ip with
      | none => none
      | some l =>
          if l.filter (inWindow w now) = [] then none
          else some (l.filter (inWindow w now)) := by
  induction m with
  | nil => rfl
  | cons e rest ih =>
      simp only [List.map_cons, List.nodup_cons] at hnd
      cases hfe : e.2.filter (inWindow w now) with
      | nil =>
          by_cases hk : e.1 = ip
          · subst hk
            have hrest : lookupIps (cleanList w now rest) e.1 = none :=
              lookup_eq_none_of_not_mem _ _
                (fun hmem => hnd.1 ((keys_cleanList_sublist w now rest).subset hmem))
            simpa [cleanList, List.filterMap_cons, hfe, lookupIps] using hrest
          · simp only [cleanList, List.filterMap_cons, hfe]
            rw [show List.filterMap _ rest = cleanList w now rest from rfl, ih hnd.2]
            simp [lookupIps, hk]
      | cons a l =>
          by_cases hk : e.1 = ip
          · subst hk
            simp [cleanList, List.filterMap_cons, hfe, lookupIps]
          · simp only [cleanList, List.filterMap_cons, hfe, lookupIps, hk, if_false]
            rw [show List.filterMap _ rest = cleanList w now rest from rfl, ih hnd.2]

theorem limitStep_frame (rl : RateLimiter) (ip : String) (now : Int) (ip' : String)
    (h : ip' ≠ ip) :
    storedTimes (limitStep rl ip now).2 ip' = storedTimes rl ip' := by
  by_cases hw : rl.whitelistIPs.contains ip = true
  · rw [whitelist_frame rl ip now hw]
  · rw [Bool.not_eq_true] at hw
    simp only [limitStep, hw, Bool.false_eq_true, if_false]
    split <;> simp [storedTimes, lookup_setIps_ne _ _ _ _ h]

theorem limitStep_reject_state (rl : RateLimiter) (ip : String) (now : Int)
    (hw : rl.whitelistIPs.contains ip = false)
    (hr : (limitStep rl ip now).1 = false) :
    storedTimes (limitStep rl ip now).2 ip =
      (storedTimes rl ip).filter (inWindow rl.window now) ++
        (storedTimes rl ip).drop
          ((storedTimes rl ip).filter (inWindow rl.window now)).length := by
  simp only [limitStep, hw, Bool.false_eq_true, if_false] at hr ⊢
  split at hr
  · rename_i hle
    rw [if_pos hle]
    simp [storedTimes, lookup_setIps_self]
  · simp at hr

theorem good_limitStep (rl : RateLimiter) (ip : String) (now : Int)
    (h : goodLimiter rl) : goodLimiter (limitStep rl ip now).2 := by
  by_cases hw : rl.whitelistIPs.contains ip = true
  · rw [whitelist_frame rl ip now hw]
    exact h
  · rw [Bool.not_eq_true] at hw
    simp only [limitStep, hw, Bool.false_eq_true, if_false]
    split
    · rename_i hle
      refine ⟨nodup_keys_setIps _ _ _ h.1, fun ip' => ?_⟩
      by_cases hip : ip' = ip
      · subst hip
        simp only [storedTimes, lookup_setIps_self, Option.getD_some]
        have h1 := List.length_filter_le (inWindow rl.window now) (storedTimes rl ip')
        have h2 := h.2 ip'
        simp only [storedTimes] at h1 h2
        simp only [List.length_append, List.length_drop]
        omega
      · simpa [storedTimes, lookup_setIps_ne _ _ _ _ hip] using h.2 ip'
    · rename_i hgt
      refine ⟨nodup_keys_setIps _ _ _ h.1, fun ip' => ?_⟩
      by_cases hip : ip' = ip
      · subst hip
        simp only [storedTimes, lookup_setIps_self, Option.getD_some]
        simp only [List.length_append, List.length_cons, List.length_nil]
        omega
      · simpa [storedTimes, lookup_setIps_ne _ _ _ _ hip] using h.2 ip'

theorem stored_cleanup (rl : RateLimiter) (now : Int) (ip : String)
    (hnd : (rl.ips.map Prod.fst).Nodup) :
    (storedTimes (cleanupStep rl now) ip).Sublist (storedTimes rl ip) := by
  unfold storedTimes
  rw [cleanupStep_ips, lookup_cleanList _ _ _ _ hnd]
  cases h : lookupIps rl.ips ip with
  | none => simp
  | some l =>
      by_cases hf : l.filter (inWindow rl.window now) = []
      · simp [hf]
      · simp only [if_neg hf, Option.getD_some]
        exact List.filter_sublist l

theorem good_cleanup (rl : RateLimiter) (now : Int) (h : goodLimiter rl) :
    goodLimiter (cleanupStep rl now) := by
  refine ⟨?_, fun ip => ?_⟩
  · rw [cleanupStep_ips]
    exact h.1.sublist (keys_cleanList_sublist _ _ _)
  · have hsub := stored_cleanup rl now ip h.1
    have := hsub.length_le
    have h2 := h.2 ip
    have hl : (cleanupStep rl now).limit = rl.limit := rfl
    omega

theorem runOp_keeps_good (rl : RateLimiter) (op : RLOp) (h : goodLimiter rl) :
    goodLimiter (runOp rl op) := by
  cases op with
  | request ip now => exact good_limitStep rl ip now h
  | sweep now => exact good_cleanup rl now h

theorem limitStep_reject_unchanged (rl : RateLimiter) (ip : String) (now : Int)
    (hg : goodLimiter rl) (hr : (limitStep rl ip now).1 = false) :
    storedTimes (limitStep rl ip now).2 ip = storedTimes rl ip := by
  by_cases hw : rl.whitelistIPs.contains ip = true
  · rw [whitelist_frame rl ip now hw] at hr
    simp at hr
  · rw [Bool.not_eq_true] at hw
    rw [limitStep_reject_state rl ip now hw hr]
    have h1 := List.length_filter_le (inWindow rl.window now) (storedTimes rl ip)
    have h2 := hg.2 ip
    have hle : rl.limit ≤ ((storedTimes rl ip).filter (inWindow rl.window now)).length := by
      simp only [limitStep, hw, Bool.false_eq_true, if_false] at hr
      by_contra hcon
      simp only [storedTimes] at hcon
      rw [if_neg hcon] at hr
      simp at hr
    have heq : ((storedTimes rl ip).filter (inWindow rl.window now)).length =
        (storedTimes rl ip).length := by omega
    have hall := List.filter_length_eq_length.mp heq
    rw [List.filter_eq_self.mpr hall, List.drop_length, List.append_nil]

theorem good_runOps (ops : List RLOp) : ∀ (rl : RateLimiter),
    goodLimiter rl → goodLimiter (runOps rl ops) := by
  induction ops with
  | nil => intro rl h; exact h
  | cons op rest ih => intro rl h; exact ih (runOp rl op) (runOp_keeps_good rl op h)

theorem stored_sublist_run (ip : String) (ops : List RLOp) :
    ∀ (rl : RateLimiter) (adm : List Int),
      goodLimiter rl → (storedTimes rl ip).Sublist adm →
      (storedTimes (runOps rl ops) ip).Sublist (adm ++ admittedTimes rl ip ops) := by
  induction ops with
  | nil =>
      intro rl adm hg hs
      simpa [runOps, admittedTimes] using hs
  | cons op rest ih =>
      intro rl adm hg hs
      cases op with
      | sweep now =>
          simp only [runOps, runOp, admittedTimes]
          exact ih (cleanupStep rl now) adm (good_cleanup rl now hg)
            ((stored_cleanup rl now ip hg.1).trans hs)
      | request ip' now =>
          by_cases hip : ip' = ip
          · subst hip
            by_cases hv : (limitStep rl ip' now).1 = true
            · simp only [runOps, runOp, admittedTimes, hv, and_true, eq_self_iff_true,
                if_true, true_and, and_self, if_pos]
              have hstep : (storedTimes (limitStep rl ip' now).2 ip').Sublist (adm ++ [now]) := by
                by_cases hwl : rl.whitelistIPs.contains ip' = true
                · rw [whitelist_frame rl ip' now hwl]
                  exact hs.trans (List.sublist_append_left adm [now])
                · rw [Bool.not_eq_true] at hwl
                  rw [limitStep_granted_state rl ip' now hwl hv]
                  exact List.Sublist.append ((List.filter_sublist _).trans hs)
                    (List.Sublist.refl [now])
              have hrec := ih (limitStep rl ip' now).2 (adm ++ [now])
                (good_limitStep rl ip' now hg) hstep
              rw [List.append_cons]
              exact hrec
            · have hv' : (limitStep rl ip' now).1 = false := by rwa [Bool.not_eq_true] at hv
              simp only [runOps, runOp, admittedTimes, hv', Bool.false_eq_true, and_false,
                if_false, and_self, if_neg, true_and, eq_self_iff_true]
              refine ih (limitStep rl ip' now).2 adm (good_limitStep rl ip' now hg) ?_
              rw [limitStep_reject_unchanged rl ip' now hg hv']
              exact hs
          · simp only [runOps, runOp, admittedTimes, hip, false_and, if_false]
            refine ih (limitStep rl ip' now).2 adm (good_limitStep rl ip' now hg) ?_
            rw [limitStep_frame rl ip' now ip (fun he => hip he.symm)]
            exact hs

/-!
## Claim theorems and witnesses
-/

/-- Claim C10 — on every address accepted by `isValidAddress`,
`formatAddress` acts as plain ASCII lowercasing (the whitespace-trim and
`0x`-adding branches are no-ops), and the formatted address is still
accepted by `isValidAddress`. -/
theorem formatAddress_preserves_validity (s : List Char)
    (h : isValidAddress s = true) :
    formatAddress s = s.map goToLowerChar ∧ isValidAddress (formatAddress s) = true := by
  obtain ⟨t, hs, hlen, hall⟩ := (isValidAddress_iff s).mp h
  subst hs
  have h0 : goToLowerChar '0' = '0' := by decide
  have hx : goToLowerChar 'x' = 'x' := by decide
  have hns : ∀ c ∈ ('0' :: 'x' :: t), isSpaceChar c = false := by
    intro c hc
    simp only [List.mem_cons] at hc
    rcases hc with rfl | rfl | hc
    · decide
    · decide
    · exact not_space_of_hex (hall c hc)
  have hfmt : formatAddress ('0' :: 'x' :: t) = '0' :: 'x' :: t.map goToLowerChar := by
    simp only [formatAddress, goTrimSpace_eq_self _ hns, List.map_cons, h0, hx]
    simp [starts0x]
  refine ⟨by rw [hfmt]; simp [h0, hx], ?_⟩
  rw [hfmt]
  refine (isValidAddress_iff _).mpr ⟨t.map goToLowerChar, rfl, by simp [hlen], ?_⟩
  intro c hc
  obtain ⟨a, ha, rfl⟩ := List.mem_map.mp hc
  exact hex_goToLowerChar (hall a ha)

/-- Witness for claim C10 at a concrete checksummed address. -/
theorem formatAddress_preserves_validity_witness :
    isValidAddress "0x742d35Cc6634C0532925a3b844Bc454e4438f44e".toList = true ∧
    (formatAddress "0x742d35Cc6634C0532925a3b844Bc454e4438f44e".toList =
        "0x742d35Cc6634C0532925a3b844Bc454e4438f44e".toList.map goToLowerChar ∧
      isValidAddress (formatAddress "0x742d35Cc6634C0532925a3b844Bc454e4438f44e".toList) = true) :=
  ⟨by decide, formatAddress_preserves_validity _ (by decide)⟩

/-- Claim C6 — `isValidAddress` returns true exactly for the strings that
consist of `0x` followed by exactly 40 hexadecimal characters, and false
for every other string (wrong total length, missing prefix, or any
non-hex character after the prefix). -/
theorem isValidAddress_exact (s : List Char) :
    isValidAddress s = true ↔
      ∃ t, s = '0' :: 'x' :: t ∧ t.length = 40 ∧ ∀ c ∈ t, isHexDigitChar c = true :=
  isValidAddress_iff s

/-- Claim C1 — for every arrival order of the three upstream operations,
`GetAddressInfo` returns either a fully populated `AddressInfo` (all
three subfields present, built from the three returned values, with a
`nil` error), or a `nil` entity together with the single wrapped error of
the first operation that failed (naming the failing call) — never a
partial result and never both a value and an error. -/
theorem aggregator_all_or_error (addr : List Char) (now : Int) (u : Upstream) (order : List UpOp)
    (h : order.Perm [UpOp.gasPriceOp, UpOp.blockNumberOp, UpOp.balanceOp]) :
    (∃ gv bnv bvv, u.gasPrice = Except.ok gv ∧ u.blockNumber = Except.ok bnv ∧
        u.balance = Except.ok bvv ∧
        getAddressInfo addr now u order =
          (some { address := addr
                  gasPrice := { wei := some gv, gwei := weiToGwei gv }
                  currentBlock := bnv
                  balance := { wei := some bvv, ether := weiToEther bvv }
                  timestamp := now }, none)) ∨
    (∃ op e, errOf u op = some e ∧
        getAddressInfo addr now u order = (none, some (wrapErr op e))) := by
  obtain ⟨gp, bn, bv⟩ := u
  rcases perm3_cases h with rfl | rfl | rfl | rfl | rfl | rfl <;>
    cases gp <;> cases bn <;> cases bv <;>
      first
        | exact Or.inl ⟨_, _, _, rfl, rfl, rfl, rfl⟩
        | exact Or.inr ⟨UpOp.gasPriceOp, _, rfl, rfl⟩
        | exact Or.inr ⟨UpOp.blockNumberOp, _, rfl, rfl⟩
        | exact Or.inr ⟨UpOp.balanceOp, _, rfl, rfl⟩

/-- Witness for claim C1: all three calls succeed, arrival order
balance, gas price, block number. -/
theorem aggregator_all_or_error_witness :
    ([UpOp.balanceOp, UpOp.gasPriceOp, UpOp.blockNumberOp].Perm
        [UpOp.gasPriceOp, UpOp.blockNumberOp, UpOp.balanceOp]) ∧
    ((∃ gv bnv bvv,
        (Upstream.mk (Except.ok 3) (Except.ok 17) (Except.ok 21)).gasPrice = Except.ok gv ∧
        (Upstream.mk (Except.ok 3) (Except.ok 17) (Except.ok 21)).blockNumber = Except.ok bnv ∧
        (Upstream.mk (Except.ok 3) (Except.ok 17) (Except.ok 21)).balance = Except.ok bvv ∧
        getAddressInfo ['a'] 7 (Upstream.mk (Except.ok 3) (Except.ok 17) (Except.ok 21))
            [UpOp.balanceOp, UpOp.gasPriceOp, UpOp.blockNumberOp] =
          (some { address := ['a']
                  gasPrice := { wei := some gv, gwei := weiToGwei gv }
                  currentBlock := bnv
                  balance := { wei := some bvv, ether := weiToEther bvv }
                  timestamp := 7 }, none)) ∨
      (∃ op e,
        errOf (Upstream.mk (Except.ok 3) (Except.ok 17) (Except.ok 21)) op = some e ∧
        getAddressInfo ['a'] 7 (Upstream.mk (Except.ok 3) (Except.ok 17) (Except.ok 21))
            [UpOp.balanceOp, UpOp.gasPriceOp, UpOp.blockNumberOp] =
          (none, some (wrapErr op e)))) :=
  ⟨by decide, aggregator_all_or_error ['a'] 7 (Upstream.mk (Except.ok 3) (Except.ok 17) (Except.ok 21))
    [UpOp.balanceOp, UpOp.gasPriceOp, UpOp.blockNumberOp] (by decide)⟩

/-- Claim C7 — on success the `gwei` field equals `wei / 10^9` and the
`ether` field equals `wei / 10^18` by exact decimal division;
wei = 12000000000 yields gwei = 12 and wei = 2500000000000000000 yields
ether = 5/2 (not the truncated integer quotient 2). The `float64` values
are modelled as exact rationals; both pinned results are dyadic
rationals of fewer than 53 bits, hence exactly representable at double
precision. -/
theorem gwei_ether_decimal_division (addr : List Char) (now : Int) (gv : Int) (bnv : Nat)
    (bvv : Int) (order : List UpOp)
    (h : order.Perm [UpOp.gasPriceOp, UpOp.blockNumberOp, UpOp.balanceOp]) :
    (getAddressInfo addr now ⟨Except.ok gv, Except.ok bnv, Except.ok bvv⟩ order).1 =
      some { address := addr
             gasPrice := { wei := some gv, gwei := (gv : ℚ) / (10 ^ 9 : ℚ) }
             currentBlock := bnv
             balance := { wei := some bvv, ether := (bvv : ℚ) / (10 ^ 18 : ℚ) }
             timestamp := now } ∧
    weiToGwei 12000000000 = 12 ∧ weiToEther 2500000000000000000 = 5 / 2 ∧
    weiToEther 2500000000000000000 ≠ 2 := by
  refine ⟨?_, by norm_num [weiToGwei], by norm_num [weiToEther], by norm_num [weiToEther]⟩
  rcases perm3_cases h with rfl | rfl | rfl | rfl | rfl | rfl <;> rfl

/-- Witness for claim C7 at the spec values. -/
theorem gwei_ether_decimal_division_witness :
    ([UpOp.gasPriceOp, UpOp.blockNumberOp, UpOp.balanceOp].Perm
        [UpOp.gasPriceOp, UpOp.blockNumberOp, UpOp.balanceOp]) ∧
    ((getAddressInfo ['a'] 0
          ⟨Except.ok 12000000000, Except.ok 1, Except.ok 2500000000000000000⟩
          [UpOp.gasPriceOp, UpOp.blockNumberOp, UpOp.balanceOp]).1 =
        some { address := ['a']
               gasPrice := { wei := some 12000000000,
                             gwei := ((12000000000 : Int) : ℚ) / (10 ^ 9 : ℚ) }
               currentBlock := 1
               balance := { wei := some 2500000000000000000,
                            ether := ((2500000000000000000 : Int) : ℚ) / (10 ^ 18 : ℚ) }
               timestamp := 0 } ∧
      weiToGwei 12000000000 = 12 ∧ weiToEther 2500000000000000000 = 5 / 2 ∧
      weiToEther 2500000000000000000 ≠ 2) :=
  ⟨by decide, gwei_ether_decimal_division ['a'] 0 12000000000 1 2500000000000000000
    [UpOp.gasPriceOp, UpOp.blockNumberOp, UpOp.balanceOp] (by decide)⟩

/-- Claim C4 — a whitelisted identity is admitted unconditionally and the
timestamp map is left completely unchanged (no entry created, pruned or
appended). -/
theorem whitelist_unconditional_pass (rl : RateLimiter) (ip : String) (now : Int)
    (h : rl.whitelistIPs.contains ip = true) :
    (limitStep rl ip now).1 = true ∧ (limitStep rl ip now).2.ips = rl.ips := by
  rw [whitelist_frame rl ip now h]
  exact ⟨rfl, rfl⟩

/-- Witness for claim C4: a whitelisted identity far over the limit. -/
theorem whitelist_unconditional_pass_witness :
    (RateLimiter.mk [("10.0.0.1", [0, 1, 2, 3, 4])] 3 1000 ["10.0.0.1"]).whitelistIPs.contains
        "10.0.0.1" = true ∧
    ((limitStep (RateLimiter.mk [("10.0.0.1", [0, 1, 2, 3, 4])] 3 1000 ["10.0.0.1"])
        "10.0.0.1" 5).1 = true ∧
      (limitStep (RateLimiter.mk [("10.0.0.1", [0, 1, 2, 3, 4])] 3 1000 ["10.0.0.1"])
        "10.0.0.1" 5).2.ips =
        (RateLimiter.mk [("10.0.0.1", [0, 1, 2, 3, 4])] 3 1000 ["10.0.0.1"]).ips) :=
  ⟨by decide, whitelist_unconditional_pass
    (RateLimiter.mk [("10.0.0.1", [0, 1, 2, 3, 4])] 3 1000 ["10.0.0.1"]) "10.0.0.1" 5 (by decide)⟩

/-- Claim C3 — for a non-whitelisted identity, `Limit` prunes the stored
timestamps to those strictly after `now - window` and admits iff the
remaining count is strictly below `limit`, appending `now` on admission;
with limit 3 and window 1000 (one second in milliseconds), three requests
inside the window are admitted, the fourth inside the window is rejected,
and a request after the window has elapsed is admitted again. -/
theorem admission_rule (rl : RateLimiter) (ip : String) (now : Int)
    (hw : rl.whitelistIPs.contains ip = false) :
    ((limitStep rl ip now).1 =
        decide (((storedTimes rl ip).filter (inWindow rl.window now)).length < rl.limit)) ∧
    ((limitStep rl ip now).1 = true →
        storedTimes (limitStep rl ip now).2 ip =
          (storedTimes rl ip).filter (inWindow rl.window now) ++ [now]) ∧
    (let rl0 : RateLimiter := ⟨[], 3, 1000, []⟩
     let s1 := limitStep rl0 "client" 0
     let s2 := limitStep s1.2 "client" 100
     let s3 := limitStep s2.2 "client" 200
     let s4 := limitStep s3.2 "client" 300
     let s5 := limitStep s4.2 "client" 1500
     s1.1 = true ∧ s2.1 = true ∧ s3.1 = true ∧ s4.1 = false ∧ s5.1 = true) :=
  ⟨limitStep_verdict rl ip now hw,
   fun ha => limitStep_granted_state rl ip now hw ha,
   by decide⟩

/-- Witness for claim C3. -/
theorem admission_rule_witness :
    (RateLimiter.mk [("c", [0, 50])] 3 1000 ["w"]).whitelistIPs.contains "c" = false ∧
    (((limitStep (RateLimiter.mk [("c", [0, 50])] 3 1000 ["w"]) "c" 100).1 =
        decide (((storedTimes (RateLimiter.mk [("c", [0, 50])] 3 1000 ["w"]) "c").filter
            (inWindow (RateLimiter.mk [("c", [0, 50])] 3 1000 ["w"]).window 100)).length <
          (RateLimiter.mk [("c", [0, 50])] 3 1000 ["w"]).limit)) ∧
      ((limitStep (RateLimiter.mk [("c", [0, 50])] 3 1000 ["w"]) "c" 100).1 = true →
        storedTimes (limitStep (RateLimiter.mk [("c", [0, 50])] 3 1000 ["w"]) "c" 100).2 "c" =
          (storedTimes (RateLimiter.mk [("c", [0, 50])] 3 1000 ["w"]) "c").filter
            (inWindow (RateLimiter.mk [("c", [0, 50])] 3 1000 ["w"]).window 100) ++ [100]) ∧
      (let rl0 : RateLimiter := ⟨[], 3, 1000, []⟩
       let s1 := limitStep rl0 "client" 0
       let s2 := limitStep s1.2 "client" 100
       let s3 := limitStep s2.2 "client" 200
       let s4 := limitStep s3.2 "client" 300
       let s5 := limitStep s4.2 "client" 1500
       s1.1 = true ∧ s2.1 = true ∧ s3.1 = true ∧ s4.1 = false ∧ s5.1 = true)) :=
  ⟨by decide, admission_rule (RateLimiter.mk [("c", [0, 50])] 3 1000 ["w"]) "c" 100 (by decide)⟩

/-- Counterexample to claim C5 — when the use case fails with an upstream
error, the handler's 500 response body carries the upstream error text in
its `error` field (`NewErrorResponse` stores `err.Error()` there), so the
body is not restricted to the generic message. -/
theorem error_body_contains_upstream_text :
    handleGetAddressInfo "0x0000000000000000000000000000000000000000".toList
        (fun _ => Except.error "failed to get gas price: connection refused") =
      HandlerResult.errorResp 500
        { status := "error", message := "Internal server error",
          error := "failed to get gas price: connection refused" } ∧
    "failed to get gas price: connection refused" ≠ "" :=
  ⟨by decide, by decide⟩

/-- Claim C5 as amended — the `Recovery` middleware's body after a
recovered fault carries only the generic message and no internal detail,
while the handler's upstream-failure response carries the generic message
`"Internal server error"` in `message` but additionally exposes the
upstream error text in the body's `error` field. -/
theorem error_bodies_generic_message_and_detail (addr : List Char) (e : String)
    (useCase : List Char → Except String AddressInfo)
    (hv : isValidAddress addr = true)
    (he : useCase (formatAddress addr) = Except.error e) :
    handleGetAddressInfo addr useCase =
      HandlerResult.errorResp 500
        { status := "error", message := "Internal server error", error := e } ∧
    recoveryBody = { status := "error", message := "Internal server error", error := "" } := by
  refine ⟨?_, rfl⟩
  simp [handleGetAddressInfo, hv, he, internalServerErrorBody, newErrorResponse]

/-- Witness for the amended claim C5. -/
theorem error_bodies_generic_message_and_detail_witness :
    (isValidAddress "0x0000000000000000000000000000000000000000".toList = true ∧
      (fun _ : List Char => (Except.error "boom" : Except String AddressInfo))
          (formatAddress "0x0000000000000000000000000000000000000000".toList) =
        Except.error "boom") ∧
    (handleGetAddressInfo "0x0000000000000000000000000000000000000000".toList
          (fun _ : List Char => (Except.error "boom" : Except String AddressInfo)) =
        HandlerResult.errorResp 500
          { status := "error", message := "Internal server error", error := "boom" } ∧
      recoveryBody = { status := "error", message := "Internal server error", error := "" }) :=
  ⟨⟨by decide, rfl⟩,
    error_bodies_generic_message_and_detail
      "0x0000000000000000000000000000000000000000".toList "boom"
      (fun _ : List Char => (Except.error "boom" : Except String AddressInfo))
      (by decide) rfl⟩

/-- Claim C2 — along any operation sequence from a fresh limiter, the
identity's stored timestamps form a sublist of its admitted request
times, so inside any trailing window the store never holds more entries
than requests admitted in that window; and a rejected `Limit` call
leaves the identity's stored timestamps unchanged (no duplicated or
extra entries, despite the in-place slice filtering). -/
theorem stored_bounded_by_admitted (limit : Nat) (window : Int) (wl : List String)
    (ip : String) (ops : List RLOp) (now rnow : Int)
    (hw : wl.contains ip = false) :
    (((storedTimes (runOps ⟨[], limit, window, wl⟩ ops) ip).filter
          (inWindow window now)).length ≤
        ((admittedTimes ⟨[], limit, window, wl⟩ ip ops).filter
          (inWindow window now)).length) ∧
    ((limitStep (runOps ⟨[], limit, window, wl⟩ ops) ip rnow).1 = false →
      storedTimes (limitStep (runOps ⟨[], limit, window, wl⟩ ops) ip rnow).2 ip =
        storedTimes (runOps ⟨[], limit, window, wl⟩ ops) ip) := by
  have hg0 : goodLimiter ⟨[], limit, window, wl⟩ :=
    ⟨by simp, fun ip0 => by simp [storedTimes, lookupIps]⟩
  have hgood := good_runOps ops _ hg0
  have hsub := stored_sublist_run ip ops ⟨[], limit, window, wl⟩ [] hg0
    (by simp [storedTimes, lookupIps])
  rw [List.nil_append] at hsub
  refine ⟨(hsub.filter (inWindow window now)).length_le, fun hrej => ?_⟩
  exact limitStep_reject_unchanged _ ip rnow hgood hrej

/-- Witness for claim C2: three admissions, one rejection, one sweep,
one later admission. -/
theorem stored_bounded_by_admitted_witness :
    ([] : List String).contains "a" = false ∧
    ((((storedTimes (runOps ⟨[], 3, 1000, []⟩
            [RLOp.request "a" 0, RLOp.request "a" 10, RLOp.request "a" 20, RLOp.request "a" 30,
              RLOp.sweep 2000, RLOp.request "a" 2100]) "a").filter
            (inWindow 1000 2200)).length ≤
        ((admittedTimes ⟨[], 3, 1000, []⟩ "a"
            [RLOp.request "a" 0, RLOp.request "a" 10, RLOp.request "a" 20, RLOp.request "a" 30,
              RLOp.sweep 2000, RLOp.request "a" 2100]).filter
            (inWindow 1000 2200)).length) ∧
      ((limitStep (runOps ⟨[], 3, 1000, []⟩
            [RLOp.request "a" 0, RLOp.request "a" 10, RLOp.request "a" 20, RLOp.request "a" 30,
              RLOp.sweep 2000, RLOp.request "a" 2100]) "a" 2105).1 = false →
        storedTimes (limitStep (runOps ⟨[], 3, 1000, []⟩
            [RLOp.request "a" 0, RLOp.request "a" 10, RLOp.request "a" 20, RLOp.request "a" 30,
              RLOp.sweep 2000, RLOp.request "a" 2100]) "a" 2105).2 "a" =
          storedTimes (runOps ⟨[], 3, 1000, []⟩
            [RLOp.request "a" 0, RLOp.request "a" 10, RLOp.request "a" 20, RLOp.request "a" 30,
              RLOp.sweep 2000, RLOp.request "a" 2100]) "a")) :=
  ⟨by decide, stored_bounded_by_admitted 3 1000 [] "a"
    [RLOp.request "a" 0, RLOp.request "a" 10, RLOp.request "a" 20, RLOp.request "a" 30,
      RLOp.sweep 2000, RLOp.request "a" 2100] 2200 2105 (by decide)⟩

/-- Claim C8 — one `cleanup` run deletes exactly the identities all of
whose stored timestamps lie at or before `now - window`, and every
surviving identity retains exactly its timestamps strictly inside the
window. -/
theorem cleanup_exact (rl : RateLimiter) (now : Int) (ip : String)
    (hnd : (rl.ips.map Prod.fst).Nodup) :
    ((∀ t ∈ storedTimes rl ip, inWindow rl.window now t = false) →
        lookupIps (cleanupStep rl now).ips ip = none) ∧
    (∀ l, lookupIps rl.ips ip = some l →
        (∃ t ∈ l, inWindow rl.window now t = true) →
        lookupIps (cleanupStep rl now).ips ip = some (l.filter (inWindow rl.window now))) := by
  constructor
  · intro hall
    rw [cleanupStep_ips, lookup_cleanList _ _ _ _ hnd]
    cases h : lookupIps rl.ips ip with
    | none => rfl
    | some l =>
        simp only [storedTimes, h, Option.getD_some] at hall
        have hfe : l.filter (inWindow rl.window now) = [] :=
          List.filter_eq_nil_iff.mpr (fun a ha => by simp [hall a ha])
        simp only [hfe, if_pos]
  · intro l hl hex
    rw [cleanupStep_ips, lookup_cleanList _ _ _ _ hnd]
    simp only [hl]
    have hne : l.filter (inWindow rl.window now) ≠ [] := by
      obtain ⟨t, ht, htw⟩ := hex
      intro hnil
      have hmem : t ∈ l.filter (inWindow rl.window now) := List.mem_filter.mpr ⟨ht, htw⟩
      rw [hnil] at hmem
      simp at hmem
    rw [if_neg hne]

/-- Witness for claim C8: identity `"b"` expires, identity `"a"`
survives with exactly its in-window timestamp. -/
theorem cleanup_exact_witness :
    ((RateLimiter.mk [("a", [0, 600]), ("b", [0])] 3 1000 []).ips.map Prod.fst).Nodup ∧
    (((∀ t ∈ storedTimes (RateLimiter.mk [("a", [0, 600]), ("b", [0])] 3 1000 []) "a",
          inWindow (RateLimiter.mk [("a", [0, 600]), ("b", [0])] 3 1000 []).window 1500 t =
            false) →
        lookupIps (cleanupStep (RateLimiter.mk [("a", [0, 600]), ("b", [0])] 3 1000 []) 1500).ips
            "a" = none) ∧
      (∀ l, lookupIps (RateLimiter.mk [("a", [0, 600]), ("b", [0])] 3 1000 []).ips "a" = some l →
        (∃ t ∈ l,
            inWindow (RateLimiter.mk [("a", [0, 600]), ("b", [0])] 3 1000 []).window 1500 t =
              true) →
        lookupIps (cleanupStep (RateLimiter.mk [("a", [0, 600]), ("b", [0])] 3 1000 []) 1500).ips
            "a" =
          some (l.filter
            (inWindow (RateLimiter.mk [("a", [0, 600]), ("b", [0])] 3 1000 []).window 1500)))) :=
  ⟨by decide, cleanup_exact (RateLimiter.mk [("a", [0, 600]), ("b", [0])] 3 1000 []) 1500 "a"
    (by decide)⟩
end ProjectExam
